import Mathlib

/-
Verification of the extent/splice engine of fish's `commandline` builtin
(src/builtin_commandline.cpp), shallowly embedded over `List Char`.

Pointers into the wide-character buffer (`begin`, `end`) are represented by
their offsets from the start of the text.  `size_t` subtraction is modelled
with an explicit wrap modulo 2^64 where the wrap is semantically relevant;
the signed `long` cursor arithmetic of `replace_part`'s insert branch is
modelled over `Int`.  A C++ `wcstring::append(s, n)` whose count can be
out of range is modelled as an `Option`, `none` standing for the fault
(negative count converted to a huge `size_t`, or a read past the buffer).
-/

namespace FishCommandline

/-- fish `editable_line_t`: a text buffer together with a cursor position. -/
structure editable_line_t where
  text : List Char
  position : Nat
deriving DecidableEq, Repr

/-- The insertion-mode enum of builtin_commandline.cpp (REPLACE_MODE,
INSERT_MODE, APPEND_MODE). -/
inductive splice_mode_t where
  | REPLACE_MODE
  | INSERT_MODE
  | APPEND_MODE
deriving DecidableEq, Repr

export splice_mode_t (REPLACE_MODE INSERT_MODE APPEND_MODE)

/-- C `size_t` subtraction `a - b`, wrapping modulo `2 ^ 64`. -/
def sub_size_t (a b : Nat) : Nat :=
  (a + 2 ^ 64 - b % 2 ^ 64) % 2 ^ 64

/-- C++ `out.append(buf + off, n)` where the count `n` comes from signed
arithmetic: reads `n` characters starting at offset `off` of `buf`.  When
`n` is negative (converted to a huge `size_t`) or the read leaves the
buffer, the call faults; this is `none`. -/
def appendN (out : List Char) (buf : List Char) (off : Nat) (n : Int) :
    Option (List Char) :=
  if 0 ≤ n ∧ off + n.toNat ≤ buf.length then
    some (out ++ (buf.drop off).take n.toNat)
  else
    none

/-- Embedding of `replace_part` (builtin_commandline.cpp lines 98-143):
replace/append/insert the extent `[b, e)` of `buffer.text` with/after/at
the string `insert`, recomputing the cursor.  The result is the
`editable_line_t` handed to `apply_new_commandline`; `none` models the
faulting append in the insert branch when the cursor lies outside the
extent. -/
def replace_part (buffer : editable_line_t) (b e : Nat)
    (insert : List Char) (append_mode : splice_mode_t) :
    Option editable_line_t :=
  let buff := buffer.text
  -- out.append(buff, begin - buff)
  let out0 := buff.take b
  match append_mode with
  | REPLACE_MODE =>
      -- out.append(insert); out_pos = wcslen(insert) + (begin - buff)
      some ⟨(out0 ++ insert) ++ buff.drop e, insert.length + b⟩
  | APPEND_MODE =>
      -- out.append(begin, end - begin); out.append(insert); out_pos kept
      some ⟨((out0 ++ (buff.drop b).take (e - b)) ++ insert) ++ buff.drop e,
            buffer.position⟩
  | INSERT_MODE =>
      -- long cursor = buffer.position - (begin - buff)
      let cursor : Int := (buffer.position : Int) - (b : Int)
      match appendN out0 buff b cursor with
      | none => none
      | some out1 =>
        let out2 := out1 ++ insert
        match appendN out2 buff (b + cursor.toNat)
            ((e : Int) - (b : Int) - cursor) with
        | none => none
        | some out3 =>
          some ⟨out3 ++ buff.drop e, buffer.position + insert.length⟩

/-- Token kinds as observed by `write_part`: `tok_last_type` either is
`TOK_STRING` or some other kind. -/
inductive tok_type_t where
  | TOK_STRING
  | TOK_OTHER
deriving DecidableEq, Repr

/-- A token as consumed by `write_part`: its position in the tokenized
text (`tok_get_pos`), its text (`tok_last`) and its kind
(`tok_last_type`). -/
structure tok_t where
  pos : Nat
  text : List Char
  kind : tok_type_t
deriving DecidableEq, Repr

/-- Modelled from the spec: `Unescape` (`unescape_string_in_place` with
`UNESCAPE_INCOMPLETE`, whose implementation is not under src/) reverses
backslash escaping and tolerates an incomplete trailing escape, which is
dropped. -/
def unescape : List Char → List Char
  | [] => []
  | ['\\'] => []
  | '\\' :: c :: rest => c :: unescape rest
  | c :: rest => c :: unescape rest

/-- Modelled from the spec: the external lexer (`tokenizer_t` with
`TOK_ACCEPT_UNFINISHED`, whose implementation is not under src/),
producing tokens left to right with kind and position.  Whitespace
separates tokens, a semicolon is a command separator of non-string kind,
and any other maximal character run is a string-literal token.  The fuel
argument bounds the recursion by the text length. -/
def tokenizeAux : Nat → List Char → Nat → List tok_t
  | 0, _, _ => []
  | _ + 1, [], _ => []
  | fuel + 1, c :: rest, i =>
    if c = ' ' then
      tokenizeAux fuel rest (i + 1)
    else if c = ';' then
      ⟨i, [';'], tok_type_t.TOK_OTHER⟩ :: tokenizeAux fuel rest (i + 1)
    else
      let w := (c :: rest).takeWhile (fun d => !(d == ' ' || d == ';'))
      ⟨i, w, tok_type_t.TOK_STRING⟩ ::
        tokenizeAux fuel (rest.drop (w.length - 1)) (i + w.length)

/-- Modelled from the spec: tokenize a whole text. -/
def fish_tokenize (s : List Char) : List tok_t :=
  tokenizeAux s.length s 0

/-- The token loop of `write_part` (lines 172-194): stop at the first
token whose end offset reaches the cursor when `cut` is set, emit each
string token unescaped on its own line, and drop tokens of other kinds
(which still count toward the cursor cut). -/
def write_tokens : List tok_t → Nat → Bool → List Char
  | [], _, _ => []
  | t :: rest, pos, cut =>
    if cut ∧ pos ≤ t.pos + t.text.length then
      []
    else
      match t.kind with
      | tok_type_t.TOK_STRING =>
          (unescape t.text ++ ['\n']) ++ write_tokens rest pos cut
      | tok_type_t.TOK_OTHER => write_tokens rest pos cut

/-- Embedding of `write_part` (lines 155-213): output the extent `[b, e)`
of `buffer`, optionally tokenized, optionally cut at the cursor.
Returns the text appended to the stdout stream.  The relative cursor
`pos` is computed with `size_t` wrap-around, as in the source. -/
def write_part (buffer : List Char) (cursor_pos : Nat) (b e : Nat)
    (cut_at_cursor tokenize : Bool) : List Char :=
  let pos := sub_size_t cursor_pos b
  if tokenize then
    write_tokens (fish_tokenize ((buffer.drop b).take (e - b))) pos
      cut_at_cursor
  else
    let e2 := if cut_at_cursor then b + pos else e
    unescape ((buffer.drop b).take (e2 - b)) ++ ['\n']

/-- The argument-joining loop of lines 612-619: `sb` starts as the first
operand, then each further operand is appended after a pushed newline. -/
def join_args (first : List Char) : List (List Char) → List Char
  | [] => first
  | a :: more => join_args ((first ++ ['\n']) ++ a) more

/-- The final argument dispatch of `builtin_commandline` (lines 596-627):
with no operand, write the extent; with one operand, splice it; with
several, join them with newlines and splice once.  Returns the exit
status, the buffer handed to `apply_new_commandline` (if any) and the
text written to stdout; `none` propagates the fault of an out-of-range
insert splice. -/
def commandline_dispatch (buffer : editable_line_t) (b e : Nat)
    (cut_at_cursor tokenize : Bool) (args : List (List Char))
    (append_mode : splice_mode_t) :
    Option (Int × Option editable_line_t × List Char) :=
  match args with
  | [] =>
      some (0, none,
        write_part buffer.text buffer.position b e cut_at_cursor tokenize)
  | [arg] =>
      (replace_part buffer b e arg append_mode).map
        (fun nb => (0, some nb, []))
  | arg :: rest =>
      (replace_part buffer b e (join_args arg rest) append_mode).map
        (fun nb => (0, some nb, []))

/-- Model of C `wcstol(s, &endptr, 10)`: skip leading whitespace, then an
optional sign, then decimal digits.  Returns the parsed value together
with the offset of `endptr` in `s`; when no digit is consumed, `endptr`
is reset to the start of the string and the value is 0.  Range overflow
(`errno`) is not modelled; the claims use small values. -/
def wcstol (s : List Char) : Int × Nat :=
  let ws := s.takeWhile (fun c => c.isWhitespace)
  let rest := s.drop ws.length
  let signLen : Nat :=
    match rest with
    | '-' :: _ => 1
    | '+' :: _ => 1
    | _ => 0
  let sign : Int :=
    match rest with
    | '-' :: _ => -1
    | _ => 1
  let digits := (rest.drop signLen).takeWhile (fun c => c.isDigit)
  if digits.length = 0 then
    (0, 0)
  else
    (sign * digits.foldl
        (fun acc c => acc * 10 + ((c.toNat - '0'.toNat : Nat) : Int)) 0,
     ws.length + signLen + digits.length)

/-- Modelled from the spec: fish's `maxi` helper (util, not under src/),
the larger of two longs. -/
def maxi (a b : Int) : Int := max a b

/-- Modelled from the spec: fish's `mini` helper (util, not under src/),
the smaller of two longs. -/
def mini (a b : Int) : Int := min a b

/-- Result of the `--cursor` branch: exit status, the buffer handed to
`apply_new_commandline` (if any), the position printed to stdout (if
any), and whether the not-a-number error was printed to stderr. -/
structure cursor_op_result_t where
  status : Int
  applied : Option editable_line_t
  printed : Option Nat
  not_a_number_error : Bool
deriving DecidableEq, Repr

/-- Embedding of the `cursor_mode` branch of `builtin_commandline`
(lines 506-534).  `snapshot_line` is `snapshot.command_line`,
`current_buffer` the buffer selected earlier (possibly a transient or an
`--input` override), `arg` the optional position operand.  A failed
parse prints the not-a-number error but does not return: the clamp and
the buffer update still run and the returned status is 0. -/
def commandline_cursor_op (snapshot_line current_buffer : editable_line_t)
    (arg : Option (List Char)) : cursor_op_result_t :=
  match arg with
  | some a =>
      let new_pos := (wcstol a).1
      let endptr := (wcstol a).2
      -- if (*endptr || errno) { print error; print help; }  (no return)
      let parse_error := endptr != a.length
      -- current_buffer = snapshot.command_line;
      -- current_buffer.position = maxi(0, mini(new_pos, size));
      let nb : editable_line_t :=
        ⟨snapshot_line.text,
         (maxi 0 (mini new_pos (snapshot_line.text.length : Int))).toNat⟩
      ⟨0, some nb, none, parse_error⟩
  | none => ⟨0, none, some current_buffer.position, false⟩

end FishCommandline

namespace FishCommandline

lemma sub_size_t_of_le {a b : Nat} (hba : b ≤ a) (ha : a < 2 ^ 64) :
    sub_size_t a b = a - b := by
  unfold sub_size_t
  have hb : b % 2 ^ 64 = b := Nat.mod_eq_of_lt (lt_of_le_of_lt hba ha)
  rw [hb]
  have h1 : a + 2 ^ 64 - b = (a - b) + 2 ^ 64 := by omega
  rw [h1, Nat.add_mod_right, Nat.mod_eq_of_lt (by omega)]

/-- `[b, e)` slice of a list, written both ways. -/
lemma drop_take_slice (l : List Char) (b e : Nat) :
    (l.drop b).take (e - b) = (l.take e).drop b := by
  rw [List.drop_take]

lemma appendN_eq_some {out buf : List Char} {off : Nat} {n : Int}
    (h0 : 0 ≤ n) (h1 : off + n.toNat ≤ buf.length) :
    appendN out buf off n = some (out ++ (buf.drop off).take n.toNat) := by
  unfold appendN
  rw [if_pos ⟨h0, h1⟩]

lemma appendN_eq_none_of_neg {out buf : List Char} {off : Nat} {n : Int}
    (h : n < 0) : appendN out buf off n = none := by
  unfold appendN
  rw [if_neg]
  intro hc
  omega

lemma appendN_eq_none_of_oob {out buf : List Char} {off : Nat} {n : Int}
    (h : buf.length < off + n.toNat) : appendN out buf off n = none := by
  unfold appendN
  rw [if_neg]
  intro hc
  omega

lemma slice_left (text : List Char) (b pos e : Nat) (hpe : pos ≤ e) :
    (text.drop b).take (pos - b) = ((text.take e).drop b).take (pos - b) := by
  rw [← drop_take_slice, List.take_take, Nat.min_eq_left (by omega)]

lemma slice_right (text : List Char) (b pos e : Nat) (hb : b ≤ pos) :
    ((text.take e).drop b).drop (pos - b) = (text.drop pos).take (e - pos) := by
  rw [List.drop_drop]
  have h : b + (pos - b) = pos := by omega
  rw [h, drop_take_slice]

/-- Insert branch of `replace_part` in take/drop normal form, under the
precondition that the cursor lies inside the extent (cf. the pointer
arithmetic at lines 127-135). -/
lemma replace_part_insert (text : List Char) (pos b e : Nat)
    (insert : List Char) (hb : b ≤ pos) (hpe : pos ≤ e)
    (he : e ≤ text.length) :
    replace_part ⟨text, pos⟩ b e insert INSERT_MODE =
      some ⟨text.take b ++ ((text.drop b).take (pos - b) ++ (insert ++
              ((text.drop pos).take (e - pos) ++ text.drop e))),
            pos + insert.length⟩ := by
  have h1 : appendN (text.take b) text b ((pos : Int) - (b : Int)) =
      some (text.take b ++ (text.drop b).take (pos - b)) := by
    rw [appendN_eq_some (by omega) (by omega)]
    have ht : ((pos : Int) - (b : Int)).toNat = pos - b := by omega
    rw [ht]
  have h2 : appendN
      ((text.take b ++ (text.drop b).take (pos - b)) ++ insert) text
      (b + ((pos : Int) - (b : Int)).toNat)
      ((e : Int) - (b : Int) - ((pos : Int) - (b : Int))) =
      some (((text.take b ++ (text.drop b).take (pos - b)) ++ insert) ++
            (text.drop pos).take (e - pos)) := by
    rw [appendN_eq_some (by omega) (by omega)]
    have ht : ((pos : Int) - (b : Int)).toNat = pos - b := by omega
    have ht2 : ((e : Int) - (b : Int) - ((pos : Int) - (b : Int))).toNat =
        e - pos := by omega
    have hbp : b + (pos - b) = pos := by omega
    rw [ht, ht2, hbp]
  simp only [replace_part, h1, h2]
  simp [List.append_assoc]

/-- The insert branch faults (out-of-range append count) when the cursor
lies outside the extent `[b, e]`. -/
lemma replace_part_insert_oob (text : List Char) (pos b e : Nat)
    (insert : List Char) (hbe : b ≤ e) (he : e ≤ text.length)
    (hout : pos < b ∨ e < pos) :
    replace_part ⟨text, pos⟩ b e insert INSERT_MODE = none := by
  rcases hout with hlt | hgt
  · have h1 : appendN (text.take b) text b ((pos : Int) - (b : Int)) =
        none := appendN_eq_none_of_neg (by omega)
    simp only [replace_part, h1]
  · by_cases hlen : pos ≤ text.length
    · have h1 : appendN (text.take b) text b ((pos : Int) - (b : Int)) =
          some (text.take b ++ (text.drop b).take (pos - b)) := by
        rw [appendN_eq_some (by omega) (by omega)]
        have ht : ((pos : Int) - (b : Int)).toNat = pos - b := by omega
        rw [ht]
      have h2 : appendN
          ((text.take b ++ (text.drop b).take (pos - b)) ++ insert) text
          (b + ((pos : Int) - (b : Int)).toNat)
          ((e : Int) - (b : Int) - ((pos : Int) - (b : Int))) = none :=
        appendN_eq_none_of_neg (by omega)
      simp only [replace_part, h1, h2]
    · have h1 : appendN (text.take b) text b ((pos : Int) - (b : Int)) =
          none := appendN_eq_none_of_oob (by omega)
      simp only [replace_part, h1]

lemma intercalate_cons_cons (a b : List Char) (rest : List (List Char)) :
    List.intercalate ['\n'] (a :: b :: rest) =
      a ++ ['\n'] ++ List.intercalate ['\n'] (b :: rest) := by
  simp [List.intercalate, List.intersperse_cons_cons]

lemma intercalate_append_head (x y : List Char) (l : List (List Char)) :
    List.intercalate ['\n'] ((x ++ y) :: l) =
      x ++ List.intercalate ['\n'] (y :: l) := by
  cases l with
  | nil => simp [List.intercalate]
  | cons m more =>
      rw [intercalate_cons_cons, intercalate_cons_cons]
      simp [List.append_assoc]

lemma join_args_eq_intercalate (first : List Char)
    (rest : List (List Char)) :
    join_args first rest = List.intercalate ['\n'] (first :: rest) := by
  induction rest generalizing first with
  | nil => simp [join_args, List.intercalate]
  | cons a more ih =>
      simp only [join_args]
      rw [ih, intercalate_append_head, intercalate_cons_cons]

lemma write_tokens_eq (toks : List tok_t) (pos : Nat) (cut : Bool) :
    write_tokens toks pos cut =
      (((if cut then
           toks.takeWhile (fun t => decide (t.pos + t.text.length < pos))
         else toks).filter
          (fun t => t.kind == tok_type_t.TOK_STRING)).map
        (fun t => unescape t.text ++ ['\n'])).flatten := by
  induction toks with
  | nil => cases cut <;> simp [write_tokens]
  | cons t rest ih =>
      rcases t with ⟨tp, tt, tk⟩
      cases cut with
      | false =>
          cases tk <;>
            simp [write_tokens, List.filter_cons, ih]
      | true =>
          by_cases h : pos ≤ tp + tt.length
          · have h2 : ¬ (tp + tt.length < pos) := by omega
            simp [write_tokens, h, List.takeWhile_cons, h2]
          · have h2 : tp + tt.length < pos := by omega
            cases tk <;>
              simp [write_tokens, h, List.takeWhile_cons, h2,
                List.filter_cons, ih]

end FishCommandline

namespace FishCommandline

/-- C1: for every text, valid extent `(b, e)` with `b ≤ e ≤ length text`,
and insert string, a Replace-mode splice returns
`newText = prefix ++ insert ++ suffix` (with `prefix = text[0:b]`,
`suffix = text[e:]`) and `newCursor = b + length insert`. -/
theorem replace_mode_splice (text : List Char) (pos b e : Nat)
    (insert : List Char) (hbe : b ≤ e) (he : e ≤ text.length) :
    replace_part ⟨text, pos⟩ b e insert REPLACE_MODE =
      some ⟨text.take b ++ insert ++ text.drop e, b + insert.length⟩ := by
  simp [replace_part, Nat.add_comm]

/-- Witness for C1: splicing "XY" over extent `[2,5)` of "abcdef" yields
text "abXYf" and cursor 4. -/
theorem replace_mode_splice_witness :
    replace_part ⟨"abcdef".data, 0⟩ 2 5 "XY".data REPLACE_MODE =
      some ⟨"abXYf".data, 4⟩ := by
  have h := replace_mode_splice "abcdef".data 0 2 5 "XY".data
    (by decide) (by decide)
  rw [h]
  rfl

/-- C2: for every text, cursor with `cursor ≤ length text`, valid extent
`(b, e)`, and insert string, an Append-mode splice returns
`newText = prefix ++ extentText ++ insert ++ suffix` and `newCursor` equal
to the original absolute cursor, not adjusted for `length insert`. -/
theorem append_mode_splice (text : List Char) (pos b e : Nat)
    (insert : List Char) (hpos : pos ≤ text.length)
    (hbe : b ≤ e) (he : e ≤ text.length) :
    replace_part ⟨text, pos⟩ b e insert APPEND_MODE =
      some ⟨text.take b ++ (text.take e).drop b ++ insert ++ text.drop e,
            pos⟩ := by
  simp [replace_part, drop_take_slice]

/-- Witness for C2: appending "Q" to extent `[1,4)` of "abcdef" with
cursor 0 yields text "abcdQef" and cursor 0. -/
theorem append_mode_splice_witness :
    replace_part ⟨"abcdef".data, 0⟩ 1 4 "Q".data APPEND_MODE =
      some ⟨"abcdQef".data, 0⟩ := by
  have h := append_mode_splice "abcdef".data 0 1 4 "Q".data
    (by decide) (by decide) (by decide)
  rw [h]
  rfl

/-- C3: for every text, valid extent, insert string, and cursor with
`b ≤ cursor ≤ e`, an Insert-mode splice with `relative = cursor - b`
returns `newText = prefix ++ extentText[0:relative] ++ insert ++
extentText[relative:] ++ suffix` and `newCursor = cursor + length insert`,
where `extentText = text[b:e]`. -/
theorem insert_mode_splice (text : List Char) (pos b e : Nat)
    (insert : List Char) (hb : b ≤ pos) (hpe : pos ≤ e)
    (he : e ≤ text.length) :
    replace_part ⟨text, pos⟩ b e insert INSERT_MODE =
      some ⟨text.take b ++ (((text.take e).drop b).take (pos - b) ++
              (insert ++ (((text.take e).drop b).drop (pos - b) ++
                text.drop e))),
            pos + insert.length⟩ := by
  rw [replace_part_insert text pos b e insert hb hpe he,
    slice_left text b pos e hpe, slice_right text b pos e hb]

/-- Witness for C3: inserting "Z" into extent `[1,5)` of "abcdef" at
cursor 3 yields text "abcZdef" and cursor 4. -/
theorem insert_mode_splice_witness :
    replace_part ⟨"abcdef".data, 3⟩ 1 5 "Z".data INSERT_MODE =
      some ⟨"abcZdef".data, 4⟩ := by
  have h := insert_mode_splice "abcdef".data 3 1 5 "Z".data
    (by decide) (by decide) (by decide)
  rw [h]
  rfl

/-- C8: the EditableBuffer invariant `cursor ≤ length text` is preserved:
whenever the input buffer satisfies it and the extent is valid (with the
cursor inside the extent for Insert mode), a successful splice yields
`newCursor ≤ length newText`. -/
theorem splice_preserves_cursor_invariant (buffer : editable_line_t)
    (b e : Nat) (insert : List Char) (mode : splice_mode_t)
    (hpos : buffer.position ≤ buffer.text.length) (hbe : b ≤ e)
    (he : e ≤ buffer.text.length)
    (hins : mode = INSERT_MODE → b ≤ buffer.position ∧
      buffer.position ≤ e) :
    ∀ nb, replace_part buffer b e insert mode = some nb →
      nb.position ≤ nb.text.length := by
  obtain ⟨text, pos⟩ := buffer
  intro nb h
  simp only at hpos he hins
  cases mode with
  | REPLACE_MODE =>
      simp only [replace_part, Option.some.injEq] at h
      subst h
      simp only [List.length_append, List.length_take, List.length_drop]
      omega
  | APPEND_MODE =>
      simp only [replace_part, Option.some.injEq] at h
      subst h
      simp only [List.length_append, List.length_take, List.length_drop]
      omega
  | INSERT_MODE =>
      obtain ⟨hb, hpe⟩ := hins rfl
      rw [replace_part_insert text pos b e insert hb hpe he] at h
      rw [Option.some.injEq] at h
      subst h
      simp only [List.length_append, List.length_take, List.length_drop]
      omega

/-- Witness for C8: the insert splice of C3's example lands on a buffer
whose cursor 4 is within its length 7. -/
theorem splice_preserves_cursor_invariant_witness :
    (⟨"abcZdef".data, 4⟩ : editable_line_t).position ≤
      (⟨"abcZdef".data, 4⟩ : editable_line_t).text.length :=
  splice_preserves_cursor_invariant ⟨"abcdef".data, 3⟩ 1 5 "Z".data
    INSERT_MODE (by decide) (by decide) (by decide)
    (fun _ => ⟨by decide, by decide⟩) ⟨"abcZdef".data, 4⟩ (by decide)

/-- C4 counterexample: at buffer "abcdef" with cursor 0 and extent
`[2,5)`, an Insert-mode splice of "Z" (cursor outside the extent) is not
detected as a usage error: no invocation result carries a nonzero status
with an untouched buffer — the splice faults instead of reporting a
structured failure. -/
theorem insert_outside_extent_cex :
    ¬ (∃ s out, commandline_dispatch ⟨"abcdef".data, 0⟩ 2 5 false false
        ["Z".data] INSERT_MODE = some (s, none, out) ∧ s ≠ 0) := by
  rintro ⟨s, out, h, hs⟩
  have hnone : commandline_dispatch ⟨"abcdef".data, 0⟩ 2 5 false false
      ["Z".data] INSERT_MODE = none := by decide
  rw [hnone] at h
  exact Option.noConfusion h

/-- C4 (amended): an Insert-mode invocation whose cursor lies outside
the target extent is not validated at all: the splice's pointer
arithmetic produces an out-of-range append count and the invocation
faults, yielding neither an applied buffer nor a structured failure
status. -/
theorem insert_outside_extent_faults (buffer : editable_line_t)
    (b e : Nat) (cut tok : Bool) (arg : List Char) (hbe : b ≤ e)
    (he : e ≤ buffer.text.length)
    (hout : buffer.position < b ∨ e < buffer.position) :
    commandline_dispatch buffer b e cut tok [arg] INSERT_MODE = none := by
  obtain ⟨text, pos⟩ := buffer
  simp only at he hout
  simp only [commandline_dispatch,
    replace_part_insert_oob text pos b e arg hbe he hout, Option.map_none']

/-- Witness for the amended C4 at the counterexample's input. -/
theorem insert_outside_extent_faults_witness :
    commandline_dispatch ⟨"abcdef".data, 0⟩ 2 5 false false ["Z".data]
      INSERT_MODE = none :=
  insert_outside_extent_faults ⟨"abcdef".data, 0⟩ 2 5 false false
    "Z".data (by decide) (by decide) (Or.inl (by decide))

/-- C5: the error path the claim describes is broken in the code: with
snapshot buffer "abcdef" and the non-numeric `--cursor` operand "12x",
the not-a-number error is printed but the operation still commits the
clamped cursor 6 (from the partial parse 12) to the live buffer and
returns status 0 (success) — the `if (*endptr || errno)` block at lines
515-521 is missing an early return. -/
theorem cursor_not_number_still_commits :
    commandline_cursor_op ⟨"abcdef".data, 0⟩ ⟨"abcdef".data, 0⟩
        (some "12x".data) =
      ⟨0, some ⟨"abcdef".data, 6⟩, none, true⟩ := by
  decide

/-- C6: with tokenize on, `write_part` iterates the extent's tokens left
to right; with `cut_at_cursor` the enumeration stops at the first token
whose end offset reaches `cursor - b`; string-literal tokens are
unescaped and emitted one per line, and all other kinds produce no
output while still counting toward the cut. -/
theorem write_part_tokenized (buffer : List Char) (cursor b e : Nat)
    (cut : Bool) (hb : b ≤ cursor) (hc : cursor < 2 ^ 64) :
    write_part buffer cursor b e cut true =
      (((if cut then
           (fish_tokenize ((buffer.take e).drop b)).takeWhile
             (fun t => decide (t.pos + t.text.length < cursor - b))
         else fish_tokenize ((buffer.take e).drop b)).filter
          (fun t => t.kind == tok_type_t.TOK_STRING)).map
        (fun t => unescape t.text ++ ['\n'])).flatten := by
  simp only [write_part, if_true]
  rw [sub_size_t_of_le hb hc, write_tokens_eq, drop_take_slice]

/-- Witness for C6: buffer "echo foo; echo bar", whole extent, cursor 6
(inside "foo"): with cut-at-cursor the output lines are exactly
["echo"], without it they are ["echo","foo","echo","bar"]. -/
theorem write_part_tokenized_witness :
    write_part "echo foo; echo bar".data 6 0 18 true true =
        "echo\n".data ∧
      write_part "echo foo; echo bar".data 6 0 18 false true =
        "echo\nfoo\necho\nbar\n".data := by
  constructor
  · have h := write_part_tokenized "echo foo; echo bar".data 6 0 18 true
      (by decide) (by decide)
    rw [h]
    decide
  · have h := write_part_tokenized "echo foo; echo bar".data 6 0 18 false
      (by decide) (by decide)
    rw [h]
    decide

/-- C7: with tokenize off, `write_part` outputs the unescaped slice
`[b, effectiveEnd)` followed by exactly one line break, where
`effectiveEnd` is `b + (cursor - b)` when cutting at the cursor and `e`
otherwise. -/
theorem write_part_non_tokenized (buffer : List Char) (cursor b e : Nat)
    (cut : Bool) (hb : b ≤ cursor) (hc : cursor < 2 ^ 64)
    (hbe : b ≤ e) (he : e ≤ buffer.length) :
    write_part buffer cursor b e cut false =
      unescape
          ((buffer.take (if cut then b + (cursor - b) else e)).drop b) ++
        ['\n'] := by
  have h1 : write_part buffer cursor b e cut false =
      unescape ((buffer.drop b).take
        ((if cut then b + (cursor - b) else e) - b)) ++ ['\n'] := by
    simp [write_part, sub_size_t_of_le hb hc]
  rw [h1, drop_take_slice]

/-- Witness for C7: formatting the Whole extent of buffer "T" with no
flags yields "T" followed by one line break. -/
theorem write_part_non_tokenized_witness :
    write_part "T".data 1 0 1 false false = "T\n".data := by
  have h := write_part_non_tokenized "T".data 1 0 1 false
    (by decide) (by decide) (by decide) (by decide)
  rw [h]
  decide

/-- C9: when the `--cursor` position operand parses successfully (the
code's own success test: `endptr` consumed the whole argument), the
committed cursor is `max 0 (min n (length text))` over the snapshot's
text — out-of-range requests are clamped, not rejected. -/
theorem cursor_arg_clamped (snapshot_line current_buffer :
      editable_line_t) (a : List Char) (h : (wcstol a).2 = a.length) :
    commandline_cursor_op snapshot_line current_buffer (some a) =
      ⟨0, some ⟨snapshot_line.text,
          (max 0 (min (wcstol a).1
            (snapshot_line.text.length : Int))).toNat⟩,
        none, false⟩ := by
  simp only [commandline_cursor_op, maxi, mini, h, bne_self_eq_false]

/-- Witness for C9: `--cursor 99` over snapshot "abcdef" commits the
clamped cursor 6. -/
theorem cursor_arg_clamped_witness :
    commandline_cursor_op ⟨"abcdef".data, 0⟩ ⟨"abcdef".data, 0⟩
        (some "99".data) =
      ⟨0, some ⟨"abcdef".data, 6⟩, none, false⟩ := by
  have h := cursor_arg_clamped ⟨"abcdef".data, 0⟩ ⟨"abcdef".data, 0⟩
    "99".data (by decide)
  rw [h]
  decide

/-- C10: two or more operand arguments are first joined with exactly one
newline between consecutive arguments, and a single splice is performed
with the combined string. -/
theorem multiple_args_joined (buffer : editable_line_t) (b e : Nat)
    (cut tok : Bool) (a1 a2 : List Char) (rest : List (List Char))
    (mode : splice_mode_t) :
    commandline_dispatch buffer b e cut tok (a1 :: a2 :: rest) mode =
      (replace_part buffer b e
          (List.intercalate ['\n'] (a1 :: a2 :: rest)) mode).map
        (fun nb => ((0 : Int), some nb, ([] : List Char))) := by
  simp only [commandline_dispatch]
  rw [join_args_eq_intercalate]

end FishCommandline
